import Mathlib

/-!
Verification of the good_git object store core against its specification.

The Rust sources (`src/object.rs`, `src/refs.rs`, `src/lib.rs`, `src/repo.rs`)
are shallowly embedded below.  Modelling conventions:

* Bytes are `Nat` (values below 256 where the program produces them).
* Rust `String`/`&str` values are Lean `String` (a list of unicode scalar
  values).  Rust's `len`, `take`, `drop` and friends on `&str` count UTF-8
  bytes; on the ASCII strings manipulated by this program they coincide with
  character counts, and the embedding works at character granularity except in
  `Object.from_hash`, whose `split_at_checked(2)` is modelled at the exact
  UTF-8 byte offset (`splitAtByte2`) because the byte/character distinction is
  observable there.
* The filesystem is modelled by an explicit `Repo` value: the object store is
  a list of `(shard directory, file name, bytes)` entries where the stored
  bytes are the bytes that zlib inflation yields (compression is performed by
  the external `flate2` crate and is not modelled); the refs store is a list
  of `(path, file content)` pairs.
* Loops whose termination depends on store contents (`log`, the recursion in
  `find_ref`) take an explicit fuel argument; exhausting the fuel returns
  `none`, modelling non-termination of the original loop.
* SHA-1 (the external `sha1` crate) and UTF-8 encoding/decoding (`std::str`)
  are modelled from their standard definitions (FIPS 180-1, RFC 3629).
-/

namespace GoodGit

/-- Decidable equality for `Except`, used to evaluate the embedded functions
on concrete inputs. -/
instance exceptDecEq {ε α : Type} [DecidableEq ε] [DecidableEq α] :
    DecidableEq (Except ε α)
  | .error a, .error b =>
    if h : a = b then .isTrue (by rw [h]) else .isFalse (fun hh => h (Except.error.inj hh))
  | .error _, .ok _ => .isFalse (fun hh => Except.noConfusion hh)
  | .ok _, .error _ => .isFalse (fun hh => Except.noConfusion hh)
  | .ok a, .ok b =>
    if h : a = b then .isTrue (by rw [h]) else .isFalse (fun hh => h (Except.ok.inj hh))

/-- Keep the low 32 bits of a natural number (32-bit wrap-around). -/
def w32 (n : Nat) : Nat := n &&& 0xFFFFFFFF

/-- Rotate a 32-bit word left by `k` bits. -/
def rotl (k w : Nat) : Nat := w32 ((w <<< k) ||| (w >>> (32 - k)))

/-- SHA-1 round function, selected by the round index. -/
def sha1F (i b c d : Nat) : Nat :=
  if i < 20 then (b &&& c) ||| ((b ^^^ 0xFFFFFFFF) &&& d)
  else if i < 40 then b ^^^ c ^^^ d
  else if i < 60 then (b &&& c) ||| (b &&& d) ||| (c &&& d)
  else b ^^^ c ^^^ d

/-- SHA-1 round constant, selected by the round index. -/
def sha1K (i : Nat) : Nat :=
  if i < 20 then 0x5A827999
  else if i < 40 then 0x6ED9EBA1
  else if i < 60 then 0x8F1BBCDC
  else 0xCA62C1D6

/-- Big-endian 32-bit words from a byte list (groups of four). -/
def bytesToWords : List Nat → List Nat
  | b0 :: b1 :: b2 :: b3 :: rest =>
      ((((b0 <<< 8) ||| b1) <<< 8 ||| b2) <<< 8 ||| b3) :: bytesToWords rest
  | _ => []

/-- Message-schedule extension: `acc` holds the words produced so far, most
recent first; `k` counts the remaining extension steps. -/
def sha1SchedAux : Nat → List Nat → List Nat
  | 0, acc => acc.reverse
  | k + 1, acc =>
      sha1SchedAux k
        (rotl 1 (acc.getD 2 0 ^^^ acc.getD 7 0 ^^^ acc.getD 13 0 ^^^ acc.getD 15 0) :: acc)

/-- The 80-word SHA-1 message schedule of one 16-word block. -/
def sha1Schedule (ws : List Nat) : List Nat := sha1SchedAux 64 ws.reverse

/-- The 80 SHA-1 rounds, folding over the scheduled words. -/
def sha1Rounds : Nat → List Nat → Nat × Nat × Nat × Nat × Nat → Nat × Nat × Nat × Nat × Nat
  | _, [], st => st
  | i, wi :: rest, (a, b, c, d, e) =>
      sha1Rounds (i + 1) rest
        (w32 (rotl 5 a + sha1F i b c d + e + sha1K i + wi), a, rotl 30 b, c, d)

/-- Compress one 64-byte block into the running SHA-1 state. -/
def sha1Block (h : Nat × Nat × Nat × Nat × Nat) (block : List Nat) :
    Nat × Nat × Nat × Nat × Nat :=
  match h with
  | (h0, h1, h2, h3, h4) =>
    match sha1Rounds 0 (sha1Schedule (bytesToWords block)) (h0, h1, h2, h3, h4) with
    | (a, b, c, d, e) => (w32 (h0 + a), w32 (h1 + b), w32 (h2 + c), w32 (h3 + d), w32 (h4 + e))

/-- Big-endian 8-byte encoding of a 64-bit length. -/
def be64 (n : Nat) : List Nat :=
  [(n >>> 56) &&& 255, (n >>> 48) &&& 255, (n >>> 40) &&& 255, (n >>> 32) &&& 255,
   (n >>> 24) &&& 255, (n >>> 16) &&& 255, (n >>> 8) &&& 255, n &&& 255]

/-- Big-endian 4-byte encoding of a 32-bit word. -/
def be32 (n : Nat) : List Nat :=
  [(n >>> 24) &&& 255, (n >>> 16) &&& 255, (n >>> 8) &&& 255, n &&& 255]

/-- SHA-1 padding: a `0x80` byte, zeros up to 56 mod 64, then the bit length. -/
def sha1Pad (msg : List Nat) : List Nat :=
  msg ++ [0x80] ++ List.replicate ((119 - msg.length % 64) % 64) 0 ++ be64 (8 * msg.length)

/-- Split a list into 64-byte chunks; the first argument is fuel (any value of
at least the list's length makes every chunk get produced). -/
def chunks64 : Nat → List Nat → List (List Nat)
  | _, [] => []
  | 0, _ :: _ => []
  | f + 1, b :: rest => (b :: rest).take 64 :: chunks64 f ((b :: rest).drop 64)

/-- SHA-1 digest (20 bytes) of a byte list, per FIPS 180-1; models the external
`sha1` crate used by `object.rs`. -/
def sha1 (msg : List Nat) : List Nat :=
  let padded := sha1Pad msg
  match (chunks64 padded.length padded).foldl sha1Block
      (0x67452301, 0xEFCDAB89, 0x98BADCFE, 0x10325476, 0xC3D2E1F0) with
  | (h0, h1, h2, h3, h4) => be32 h0 ++ be32 h1 ++ be32 h2 ++ be32 h3 ++ be32 h4

/-- Lowercase hexadecimal digit for a value below 16. -/
def hexChar (n : Nat) : Char :=
  if n < 10 then Char.ofNat (48 + n) else Char.ofNat (87 + n)

/-- Lowercase hexadecimal rendering of a byte list; models `hex::encode`. -/
def hexEncode (l : List Nat) : String :=
  ⟨(l.map (fun b => [hexChar (b / 16), hexChar (b % 16)])).flatten⟩

/-- UTF-8 encoding of one unicode scalar value, per RFC 3629. -/
def utf8EncodeChar (c : Char) : List Nat :=
  let n := c.toNat
  if n < 0x80 then [n]
  else if n < 0x800 then [0xC0 + (n >>> 6), 0x80 + (n &&& 0x3F)]
  else if n < 0x10000 then
    [0xE0 + (n >>> 12), 0x80 + ((n >>> 6) &&& 0x3F), 0x80 + (n &&& 0x3F)]
  else
    [0xF0 + (n >>> 18), 0x80 + ((n >>> 12) &&& 0x3F), 0x80 + ((n >>> 6) &&& 0x3F),
     0x80 + (n &&& 0x3F)]

/-- UTF-8 bytes of a character list. -/
def utf8Bytes (s : List Char) : List Nat := (s.map utf8EncodeChar).flatten

/-- UTF-8 bytes of a string. -/
def strBytes (s : String) : List Nat := utf8Bytes s.data

/-- Is this byte a UTF-8 continuation byte (`10xxxxxx`)? -/
def isContByte (b : Nat) : Bool := 128 ≤ b && b < 192

/-- UTF-8 decoding (validating, per RFC 3629: rejects stray or missing
continuation bytes, overlong forms, surrogates and values above `0x10FFFF`);
models `std::str::from_utf8`.  The first argument is fuel; `l.length` always
suffices.  `acc` holds the already decoded characters in reverse. -/
def utf8DecodeAux : Nat → List Nat → List Char → Option (List Char)
  | _, [], acc => some acc.reverse
  | 0, _ :: _, _ => none
  | f + 1, b :: rest, acc =>
    if b < 0x80 then utf8DecodeAux f rest (Char.ofNat b :: acc)
    else if b < 0xC0 then none
    else if b < 0xE0 then
      match rest with
      | b2 :: rest2 =>
        if isContByte b2 then
          let v := ((b - 0xC0) <<< 6) + (b2 - 0x80)
          if 0x80 ≤ v then utf8DecodeAux f rest2 (Char.ofNat v :: acc) else none
        else none
      | [] => none
    else if b < 0xF0 then
      match rest with
      | b2 :: b3 :: rest3 =>
        if isContByte b2 && isContByte b3 then
          let v := ((b - 0xE0) <<< 12) + ((b2 - 0x80) <<< 6) + (b3 - 0x80)
          if 0x800 ≤ v && !(0xD800 ≤ v && v < 0xE000) then
            utf8DecodeAux f rest3 (Char.ofNat v :: acc)
          else none
        else none
      | _ => none
    else if b < 0xF8 then
      match rest with
      | b2 :: b3 :: b4 :: rest4 =>
        if isContByte b2 && isContByte b3 && isContByte b4 then
          let v := ((b - 0xF0) <<< 18) + ((b2 - 0x80) <<< 12) + ((b3 - 0x80) <<< 6) + (b4 - 0x80)
          if 0x10000 ≤ v && v < 0x110000 then utf8DecodeAux f rest4 (Char.ofNat v :: acc)
          else none
        else none
      | _ => none
    else none

/-- UTF-8 decoding of a byte list into characters. -/
def utf8Decode (l : List Nat) : Option (List Char) := utf8DecodeAux l.length l []

/-- The `hash` function of `object.rs`: SHA-1 of the bytes, rendered as
lowercase hex. -/
def hash (s : List Nat) : String := hexEncode (sha1 s)

/-- A blob object (`object.rs`): opaque byte content. -/
structure Blob where
  content : List Nat
deriving DecidableEq

/-- Models `Blob::hash` in `object.rs`: SHA-1 of `"blob {size}\0"` followed by the
content. -/
def Blob.hash (b : Blob) : String :=
  GoodGit.hash (strBytes ("blob " ++ Nat.repr b.content.length ++ "\x00") ++ b.content)

/-- The canonical byte encoding of a blob per spec section 3:
`"blob <content-byte-length>\0<content-bytes>"`. -/
def blobEncode (b : Blob) : List Nat :=
  strBytes ("blob " ++ Nat.repr b.content.length) ++ [0] ++ b.content

/-- Character-level `String.take`; on ASCII strings this is Rust's byte-indexed
slicing. -/
def strTake (s : String) (n : Nat) : String := ⟨s.data.take n⟩

/-- Character-level `String.drop`; on ASCII strings this is Rust's byte-indexed
slicing. -/
def strDrop (s : String) (n : Nat) : String := ⟨s.data.drop n⟩

/-- Character count of a string; on ASCII strings this is Rust's byte `len`. -/
def strLen (s : String) : Nat := s.data.length

/-- Models `str::starts_with` for a string pattern. -/
def strStartsWith (s pre : String) : Bool := pre.data.isPrefixOf s.data

/-- Unicode `White_Space` test, as used by Rust's `char::is_whitespace`. -/
def rustIsWhitespace (c : Char) : Bool :=
  let n := c.toNat
  (9 ≤ n && n ≤ 13) || n = 32 || n = 0x85 || n = 0xA0 || n = 0x1680 ||
    (0x2000 ≤ n && n ≤ 0x200A) || n = 0x2028 || n = 0x2029 || n = 0x202F ||
    n = 0x205F || n = 0x3000

/-- Models `str::trim_end`: remove trailing whitespace. -/
def trimEnd (s : String) : String :=
  ⟨(s.data.reverse.dropWhile rustIsWhitespace).reverse⟩

/-- Models `str::trim`: remove leading and trailing whitespace. -/
def rustTrim (s : String) : String :=
  ⟨((s.data.dropWhile rustIsWhitespace).reverse.dropWhile rustIsWhitespace).reverse⟩

/-- One step of `str::trim_start_matches("ref: ")`; the fuel argument makes the
repetition structural (`s.length` always suffices). -/
def stripRefAux : Nat → List Char → List Char
  | 0, s => s
  | f + 1, s => if "ref: ".data.isPrefixOf s then stripRefAux f (s.drop 5) else s

/-- Models `content.trim_start_matches("ref: ")` from `refs.rs`: repeatedly
removes the prefix `"ref: "`. -/
def stripRefMarker (s : String) : String := ⟨stripRefAux s.data.length s.data⟩

/-- Strip one trailing carriage return, as Rust's `str::lines` does on a line
that was terminated by `"\r\n"`.  `acc` is the line in reverse. -/
def dropCR (acc : List Char) : List Char :=
  match acc with
  | '\r' :: t => t
  | _ => acc

/-- Worker for `rustLines`: `acc` is the current (unterminated) line in
reverse. -/
def rustLinesAux (acc : List Char) : List Char → List (List Char)
  | [] => [acc.reverse]
  | c :: rest =>
    if c = '\n' then
      (dropCR acc).reverse :: (match rest with | [] => [] | _ :: _ => rustLinesAux [] rest)
    else rustLinesAux (c :: acc) rest

/-- Models `str::lines`: splits at `"\n"` (also consuming a preceding `"\r"`),
with an optional final line terminator producing no trailing empty line. -/
def rustLines (s : List Char) : List (List Char) :=
  match s with
  | [] => []
  | _ :: _ => rustLinesAux [] s

/-- Join lines with `"\n"`, as `Vec::join("\n")` does in the commit decoder. -/
def joinNL : List (List Char) → List Char
  | [] => []
  | [l] => l
  | l :: ls => l ++ '\n' :: joinNL ls

/-- Models `str::split_once(' ')`: split at the first space, which is not kept
in either part. -/
def splitOnceSpace : List Char → Option (List Char × List Char)
  | [] => none
  | c :: rest =>
    if c = ' ' then some ([], rest)
    else (splitOnceSpace rest).map (fun p => (c :: p.1, p.2))

/-- Digit-string parser: `acc` accumulates the value. -/
def parseDigitsAux : List Char → Nat → Option Nat
  | [], acc => some acc
  | c :: rest, acc =>
    if c.isDigit then parseDigitsAux rest (acc * 10 + (c.toNat - 48)) else none

/-- Models `str::parse::<usize>()`: an optional leading `+`, then at least one
decimal digit.  The `usize` overflow bound is not modelled (the parsed sizes
in scope fit easily). -/
def parseUsize (cs : List Char) : Option Nat :=
  match cs with
  | [] => none
  | '+' :: rest => if rest.isEmpty then none else parseDigitsAux rest 0
  | _ => parseDigitsAux cs 0

/-- Models `BufRead::read_until(delim)` on an in-memory slice: returns the
consumed bytes (including the delimiter, when found) and the remainder.  On a
slice this never returns an I/O error. -/
def readUntil (delim : Nat) : List Nat → List Nat × List Nat
  | [] => ([], [])
  | b :: rest =>
    if b = delim then ([b], rest)
    else
      let p := readUntil delim rest
      (b :: p.1, p.2)

/-- Tree-entry modes (`object.rs`). -/
inductive Mode where
  | NormalFile
  | Executable
  | SymbolicLink
  | Tree
  | Submodule
deriving DecidableEq

/-- Models `Mode::from_mode_str` in `object.rs`. -/
def Mode.from_mode_str (mode : String) : Except String Mode :=
  match mode with
  | "100644" => .ok .NormalFile
  | "100755" => .ok .Executable
  | "120000" => .ok .SymbolicLink
  | "40000" => .ok .Tree
  | "160000" => .ok .Submodule
  | _ => .error "Unknown mode"

/-- A tree entry (`File` in `object.rs`). -/
structure File where
  mode : Mode
  name : String
  hash : String
deriving DecidableEq

/-- A tree object (`object.rs`). -/
structure Tree where
  files : List File
deriving DecidableEq

/-- A commit object (`object.rs`); `Commit::default()` has every field empty. -/
structure Commit where
  tree : String := ""
  parent : String := ""
  author : String := ""
  committer : String := ""
  encoding : String := ""
  message : String := ""
deriving DecidableEq

/-- Models `Commit::default()`. -/
def commitDefault : Commit := {}

/-- The object sum type (`object.rs`). -/
inductive Object where
  | Blob (b : Blob)
  | Tree (t : Tree)
  | Commit (c : Commit)
deriving DecidableEq

/-- The tree-entry loop of `Object::from_bytes`.  The fuel argument makes the
loop structural; `content.length + 1` always suffices since every iteration
consumes at least one byte (the zero-fuel case is unreachable).  `acc` holds
the parsed entries in reverse.  Error strings are the outermost `context`
messages of the Rust code ("invalid utf-8" standing for the propagated
`Utf8Error`).  Where the Rust code would panic (a name read at the very end of
the content underflows `name_size - 1`), this model instead reaches the
"Failed to read hash" error; no claim depends on that corner. -/
def parseTreeEntries : Nat → List Nat → List File → Except String (List File)
  | _, [], acc => .ok acc.reverse
  | 0, _ :: _, _ => .error "Failed to read mode"
  | f + 1, b :: bs, acc =>
    let m := readUntil 32 (b :: bs)
    match utf8Decode m.1.dropLast with
    | none => .error "invalid utf-8"
    | some modeChars =>
      match Mode.from_mode_str ⟨modeChars⟩ with
      | .error _ => .error "Failed to parse mode"
      | .ok mode =>
        let nm := readUntil 0 m.2
        match utf8Decode nm.1.dropLast with
        | none => .error "invalid utf-8"
        | some nameChars =>
          if nm.2.length < 20 then .error "Failed to read hash"
          else
            parseTreeEntries f (nm.2.drop 20)
              ({ mode := mode, name := ⟨nameChars⟩, hash := hexEncode (nm.2.take 20) } :: acc)

/-- The key dispatch of the commit header loop: a recognized key overwrites
the corresponding field, any other key leaves the commit unchanged. -/
def applyHeaderKV (cm : Commit) (kv : List Char × List Char) : Commit :=
  if kv.1 = "tree".data then { cm with tree := ⟨kv.2⟩ }
  else if kv.1 = "parent".data then { cm with parent := ⟨kv.2⟩ }
  else if kv.1 = "author".data then { cm with author := ⟨kv.2⟩ }
  else if kv.1 = "committer".data then { cm with committer := ⟨kv.2⟩ }
  else if kv.1 = "encoding".data then { cm with encoding := ⟨kv.2⟩ }
  else cm

/-- The commit header/message loop of `Object::from_bytes`, over the lines of
the (already UTF-8 decoded) content. -/
def parseCommitLines : List (List Char) → Commit → Except String Commit
  | [], cm => .ok cm
  | l :: rest, cm =>
    if l.isEmpty then .ok { cm with message := ⟨joinNL rest⟩ }
    else
      match splitOnceSpace l with
      | none => .error "Invalid line"
      | some kv => parseCommitLines rest (applyHeaderKV cm kv)

/-- The commit arm of `Object::from_bytes`, from the decoded content
characters. -/
def parseCommitContent (content : List Char) : Except String Commit :=
  parseCommitLines (rustLines content) commitDefault

/-- Models `Object::parse_header`: first space ends the type token, first null byte
ends the size token; returns the type, the declared size and the index of the
null byte.  (When the first null precedes the first space the Rust slice
`s[space+1..null]` panics; the model's `take`/`drop` yields an empty token and
an error instead — no claim touches that corner.) -/
def Object.parse_header (s : List Nat) : Except String (String × Nat × Nat) :=
  match s.findIdx? (· == 32) with
  | none => .error "Incorrect header format"
  | some spaceIdx =>
    match s.findIdx? (· == 0) with
    | none => .error "Incorrect header format"
    | some nullIdx =>
      match utf8Decode (s.take spaceIdx) with
      | none => .error "invalid utf-8"
      | some typeChars =>
        match utf8Decode ((s.take nullIdx).drop (spaceIdx + 1)) with
        | none => .error "invalid utf-8"
        | some sizeChars =>
          match parseUsize sizeChars with
          | none => .error "invalid digit found in string"
          | some n => .ok (⟨typeChars⟩, n, nullIdx)

/-- Models `Object::from_bytes`: parse the header, check the declared length against
the remaining bytes, then dispatch on the type token. -/
def Object.from_bytes (s : List Nat) : Except String Object :=
  match Object.parse_header s with
  | .error e => .error e
  | .ok (t, size, headerEnd) =>
    let content := s.drop (headerEnd + 1)
    if content.length ≠ size then .error "Incorrect header length"
    else
      match t with
      | "blob" => .ok (.Blob ⟨content⟩)
      | "tree" =>
        match parseTreeEntries (content.length + 1) content [] with
        | .error e => .error e
        | .ok files => .ok (.Tree ⟨files⟩)
      | "commit" =>
        match utf8Decode content with
        | none => .error "invalid utf-8"
        | some cs =>
          match parseCommitContent cs with
          | .error e => .error e
          | .ok cm => .ok (.Commit cm)
      | _ => .error "Unknown object type"

/-- One stored object file: the shard directory name (first two identifier
characters), the file name within the shard, and the bytes that zlib
inflation of the file yields. -/
structure StoreEntry where
  shard : String
  name : String
  data : List Nat
deriving DecidableEq

/-- The filesystem contents of a repository's `.git` directory: the `objects`
tree and the reference files (path relative to `.git`, textual content). -/
structure Repo where
  objects : List StoreEntry := []
  refFiles : List (String × String) := []
deriving DecidableEq

/-- Does the shard directory `objects/<sh>` exist? -/
def shardExists (repo : Repo) (sh : String) : Bool :=
  repo.objects.any (fun e => e.shard == sh)

/-- Models `fs::read_dir` on `objects/<sh>`: the file names in that shard. -/
def shardListing (repo : Repo) (sh : String) : List String :=
  (repo.objects.filter (fun e => e.shard == sh)).map (fun e => e.name)

/-- Models reading `objects/<sh>/<nm>` and inflating it. -/
def readObject (repo : Repo) (sh nm : String) : Option (List Nat) :=
  (repo.objects.find? (fun e => e.shard == sh && e.name == nm)).map (fun e => e.data)

/-- Models `Object::from_file`: read the object file (error "Could not read from
file" when absent), inflate, decode. -/
def Object.from_file (repo : Repo) (sh nm : String) : Except String Object :=
  match readObject repo sh nm with
  | none => .error "Could not read from file"
  | some d => Object.from_bytes d

/-- Models `str::split_at_checked(2)`: split at UTF-8 byte offset 2, `none`
when the string is shorter than two bytes or offset 2 falls inside a
character. -/
def splitAtByte2 (l : List Char) : Option (List Char × List Char) :=
  match l with
  | [] => none
  | [c] => if (utf8EncodeChar c).length = 2 then some ([c], []) else none
  | c1 :: c2 :: rest =>
    if (utf8EncodeChar c1).length = 1 then
      if (utf8EncodeChar c2).length = 1 then some ([c1, c2], rest) else none
    else if (utf8EncodeChar c1).length = 2 then some ([c1], c2 :: rest)
    else none

/-- Models `Object::from_hash`: split the hash after its first two bytes (error
"Invalid hash" when impossible) and read `objects/<short>/<long>`. -/
def Object.from_hash (repo : Repo) (hsh : String) : Except String Object :=
  match splitAtByte2 hsh.data with
  | none => .error "Invalid hash"
  | some p => Object.from_file repo ⟨p.1⟩ ⟨p.2⟩

/-- Debug rendering of a `Vec<String>`, as interpolated by `{:?}` in the
ambiguous-reference error (escaping of special characters inside the strings
is not modelled; stored identifiers are plain hex). -/
def rustDebugList (l : List String) : String :=
  "[" ++ String.intercalate ", " (l.map (fun s => "\"" ++ s ++ "\"")) ++ "]"

/-- Models `Object::from_rev`: when the revision has length at least 4, list the
shard directory named by its first two characters and collect every file name
starting with the remaining suffix; then decide by candidate count. -/
def Object.from_rev (repo : Repo) (rev : String) : Except String Object :=
  let candidates : List String :=
    if 4 ≤ strLen rev then
      let sh := strTake rev 2
      let lh := strDrop rev 2
      if shardExists repo sh then
        ((shardListing repo sh).filter (fun nm => strStartsWith nm lh)).map
          (fun nm => sh ++ nm)
      else []
    else []
  match candidates with
  | [c] => Object.from_hash repo c
  | [] => .error "Object not found"
  | _ => .error ("Ambiguous reference: " ++ rustDebugList candidates)

/-- The shard directories `Object::from_rev` lists via `fs::read_dir`:
exactly one when the revision is long enough and the shard path exists,
otherwise none.  Mirrors the control flow of `from_rev`. -/
def fromRevDirsRead (repo : Repo) (rev : String) : List String :=
  if 4 ≤ strLen rev then
    if shardExists repo (strTake rev 2) then [strTake rev 2] else []
  else []

/-- Models reading the reference file at `.git/<reference>`. -/
def refLookup (repo : Repo) (reference : String) : Option String :=
  (repo.refFiles.find? (fun p => p.1 == reference)).map (fun p => p.2)

/-- Models `find_ref` from `refs.rs` with explicit fuel for the recursion (`none`
models running out of fuel; the original recursion is unbounded on reference
cycles).  A missing path fails; content starting with `"ref: "` recurses on
the content with all leading markers stripped and the end trimmed; any other
content is returned end-trimmed. -/
def find_ref (repo : Repo) : Nat → String → Option (Except String String)
  | 0, _ => none
  | fuel + 1, reference =>
    match refLookup repo reference with
    | none => some (.error ("Reference not found: " ++ reference))
    | some content =>
      if strStartsWith content "ref: " then
        find_ref repo fuel (trimEnd (stripRefMarker content))
      else some (.ok (trimEnd content))

/-- The first line of a commit message: `message.lines().next().unwrap_or("")`
in `lib.rs`. -/
def firstLine (s : String) : String :=
  match rustLines s.data with
  | [] => ""
  | l :: _ => ⟨l⟩

/-- One output line of `log` (`lib.rs`): `"{this_rev:.6} - {first_line} -
\"{commiter}\""`; the `:.6` precision truncates the revision to six
characters. -/
def fmtLogLine (rev : String) (cm : Commit) : String :=
  strTake rev 6 ++ " - " ++ firstLine cm.message ++ " - \"" ++ cm.committer ++ "\""

/-- The `log` loop of `lib.rs` with explicit fuel (`none` models a loop that
is still running when the fuel ends; parent cycles make the original loop
spin forever).  `acc` holds the emitted lines in reverse. -/
def logAux (repo : Repo) : Nat → String → List String → Option (Except String (List String))
  | 0, _, _ => none
  | fuel + 1, rev, acc =>
    match Object.from_rev repo rev with
    | .error e => some (.error e)
    | .ok (.Blob _) => some (.ok acc.reverse)
    | .ok (.Tree _) => some (.ok acc.reverse)
    | .ok (.Commit cm) =>
      if cm.parent = "" then some (.ok (fmtLogLine rev cm :: acc).reverse)
      else logAux repo fuel cm.parent (fmtLogLine rev cm :: acc)

/-- Models `log` from `lib.rs`: the sequence of lines written to stdout (without the
trailing newline each `writeln!` appends). -/
def log (repo : Repo) (rev : String) (fuel : Nat) : Option (Except String (List String)) :=
  logAux repo fuel rev []

/-- The candidate identifiers of a revision, as the spec describes them: the
stored identifiers whose shard equals the revision's 2-character prefix and
whose in-shard name starts with the remaining suffix. -/
def matchingIds (repo : Repo) (rev : String) : List String :=
  (repo.objects.filter
      (fun e => e.shard == strTake rev 2 && strStartsWith e.name (strDrop rev 2))).map
    (fun e => e.shard ++ e.name)

/-- The lines following the first empty line of a line list (empty when there
is no empty line). -/
def linesAfterFirstEmpty (ls : List (List Char)) : List (List Char) :=
  match ls.dropWhile (fun l => !l.isEmpty) with
  | [] => []
  | _ :: t => t

/-! ### Supporting lemmas -/

theorem strBytes_append (a b : String) : strBytes (a ++ b) = strBytes a ++ strBytes b := by
  show utf8Bytes (a.data ++ b.data) = _
  simp [strBytes, utf8Bytes]

theorem strBytes_nullByte : strBytes "\x00" = [0] := by decide

theorem parseTreeEntries_error_msg :
    ∀ (f : Nat) (c : List Nat) (acc : List File) (e : String),
      parseTreeEntries f c acc = .error e →
      e = "Failed to read mode" ∨ e = "invalid utf-8" ∨ e = "Failed to parse mode" ∨
        e = "Failed to read hash" := by
  intro f
  induction f with
  | zero =>
    intro c acc e h
    cases c with
    | nil => simp [parseTreeEntries] at h
    | cons b bs =>
      simp only [parseTreeEntries] at h
      exact Or.inl (Except.error.inj h).symm
  | succ f ih =>
    intro c acc e h
    cases c with
    | nil => simp [parseTreeEntries] at h
    | cons b bs =>
      simp only [parseTreeEntries] at h
      split at h
      · exact Or.inr (Or.inl (Except.error.inj h).symm)
      · split at h
        · exact Or.inr (Or.inr (Or.inl (Except.error.inj h).symm))
        · split at h
          · exact Or.inr (Or.inl (Except.error.inj h).symm)
          · split at h
            · exact Or.inr (Or.inr (Or.inr (Except.error.inj h).symm))
            · exact ih _ _ _ h

theorem parseCommitLines_error_msg :
    ∀ (ls : List (List Char)) (cm : Commit) (e : String),
      parseCommitLines ls cm = .error e → e = "Invalid line" := by
  intro ls
  induction ls with
  | nil => intro cm e h; simp [parseCommitLines] at h
  | cons l rest ih =>
    intro cm e h
    simp only [parseCommitLines] at h
    split at h
    · exact absurd h (by simp)
    · split at h
      · exact (Except.error.inj h).symm
      · exact ih _ _ h

/-! ### C1 — blob hashing -/

set_option maxRecDepth 100000 in
/-- C1: `Blob::hash` is SHA-1 of the blob's canonical byte encoding rendered
as 40 lowercase hex characters; the blob `"what is up, doc?"` hashes to
`bd9dbf5aae1a3862dd1526723246b20206e5fc37` and `"test content\n"` hashes to
`d670460b4b4aece5915caf5c68d12f560a9fe3e4`. -/
theorem blob_hash_is_sha1_of_encoding :
    (∀ b : Blob, b.hash = hash (blobEncode b)) ∧
    (Blob.mk (strBytes "what is up, doc?")).hash =
      "bd9dbf5aae1a3862dd1526723246b20206e5fc37" ∧
    (Blob.mk (strBytes "test content\n")).hash =
      "d670460b4b4aece5915caf5c68d12f560a9fe3e4" := by
  refine ⟨fun b => ?_, by decide, by decide⟩
  simp [Blob.hash, blobEncode, strBytes_append, strBytes_nullByte]

/-! ### C2 — the declared-length check of the codec -/

/-- C2: for every byte buffer with a well-formed header, decoding fails with
"Incorrect header length" exactly when the number of bytes after the header's
null byte differs from the declared length. -/
theorem from_bytes_length_check (s : List Nat) (t : String) (n i : Nat)
    (h : Object.parse_header s = .ok (t, n, i)) :
    (Object.from_bytes s = .error "Incorrect header length" ↔ s.length - (i + 1) ≠ n) := by
  simp only [Object.from_bytes, h]
  rw [List.length_drop]
  by_cases hn : s.length - (i + 1) = n
  · rw [if_neg (by omega)]
    constructor
    · intro hc
      exfalso
      split at hc
      · exact Except.noConfusion hc
      · split at hc
        next heq =>
          rcases parseTreeEntries_error_msg _ _ _ _ heq with h1 | h1 | h1 | h1 <;>
            (rw [Except.error.inj hc] at h1; exact absurd h1 (by decide))
        next => exact Except.noConfusion hc
      · split at hc
        · exact absurd (Except.error.inj hc) (by decide)
        · split at hc
          next heq =>
            have := parseCommitLines_error_msg _ _ _ heq
            rw [Except.error.inj hc] at this
            exact absurd this (by decide)
          next => exact Except.noConfusion hc
      · exact absurd (Except.error.inj hc) (by decide)
    · intro hr; exact absurd hn hr
  · rw [if_pos (by omega)]
    simp [hn]

/-- C2 witness: the buffer `"blob 0\0hi"` has 2 bytes after the header but
declares 0, and decoding fails with "Incorrect header length". -/
theorem from_bytes_length_check_witness :
    Object.from_bytes (strBytes "blob 0\x00hi") = .error "Incorrect header length" :=
  (from_bytes_length_check (strBytes "blob 0\x00hi") "blob" 0 6 (by decide)).mpr (by decide)

/-! ### C4 — short revisions -/

/-- C4: a revision shorter than 4 characters always fails with "Object not
found", whatever the store holds, and lists no shard directory. -/
theorem from_rev_short (repo : Repo) (rev : String) (h : strLen rev < 4) :
    Object.from_rev repo rev = .error "Object not found" ∧ fromRevDirsRead repo rev = [] := by
  have h4 : ¬ 4 ≤ strLen rev := by omega
  constructor
  · simp [Object.from_rev, h4]
  · simp [fromRevDirsRead, h4]

/-- C4 witness: the revision `"ab"` fails even on a store that has objects in
shard `ab`, and no directory is listed. -/
theorem from_rev_short_witness :
    Object.from_rev ⟨[⟨"ab", "cdef", [9]⟩], []⟩ "ab" = .error "Object not found" ∧
    fromRevDirsRead ⟨[⟨"ab", "cdef", [9]⟩], []⟩ "ab" = [] :=
  from_rev_short ⟨[⟨"ab", "cdef", [9]⟩], []⟩ "ab" (by decide)

/-! ### C3 — revision resolution by candidate count -/

theorem shardCandidates_eq (repo : Repo) (sh lh : String) :
    ((shardListing repo sh).filter (fun nm => strStartsWith nm lh)).map (fun nm => sh ++ nm) =
      (repo.objects.filter (fun e => e.shard == sh && strStartsWith e.name lh)).map
        (fun e => e.shard ++ e.name) := by
  unfold shardListing
  induction repo.objects with
  | nil => rfl
  | cons a t ih =>
    by_cases h1 : a.shard = sh
    · by_cases h2 : strStartsWith a.name lh = true
      · simp [List.filter_cons, h1, h2, ih]
      · simp [List.filter_cons, h1, h2, ih]
    · simp [List.filter_cons, h1, ih]

theorem matchingIds_of_no_shard (repo : Repo) (rev : String)
    (h : shardExists repo (strTake rev 2) = false) : matchingIds repo rev = [] := by
  have hall := List.any_eq_false.mp h
  unfold matchingIds
  rw [List.filter_eq_nil_iff.mpr ?_, List.map_nil]
  intro e he
  simp [hall e he]

/-- C3: for a revision of length at least 4, resolution is decided by the
candidate set — the stored identifiers whose shard matches the 2-character
prefix and whose in-shard name starts with the remaining suffix: one candidate
resolves through `from_hash`, zero fails "Object not found", two or more fail
with an ambiguity error carrying the full candidate list. -/
theorem from_rev_decides (repo : Repo) (rev : String) (h4 : 4 ≤ strLen rev) :
    (∀ c, matchingIds repo rev = [c] →
        Object.from_rev repo rev = Object.from_hash repo c) ∧
    (matchingIds repo rev = [] → Object.from_rev repo rev = .error "Object not found") ∧
    (2 ≤ (matchingIds repo rev).length →
        Object.from_rev repo rev =
          .error ("Ambiguous reference: " ++ rustDebugList (matchingIds repo rev))) := by
  have hkey : Object.from_rev repo rev =
      (match matchingIds repo rev with
        | [c] => Object.from_hash repo c
        | [] => .error "Object not found"
        | _ => .error ("Ambiguous reference: " ++ rustDebugList (matchingIds repo rev))) := by
    simp only [Object.from_rev, if_pos h4]
    by_cases hex : shardExists repo (strTake rev 2)
    · rw [if_pos hex, shardCandidates_eq]
      rfl
    · rw [if_neg hex, matchingIds_of_no_shard repo rev (by simpa using hex)]
  refine ⟨fun c hc => ?_, fun hc => ?_, fun hlen => ?_⟩
  · rw [hkey, hc]
  · rw [hkey, hc]
  · rcases hmi : matchingIds repo rev with _ | ⟨a, _ | ⟨b, t⟩⟩
    · rw [hmi] at hlen; simp at hlen
    · rw [hmi] at hlen; simp at hlen
    · rw [hkey, hmi]

/-- C3 witness: a store with two identifiers `aabbbb` and `aabbbc` makes the
revision `aabb` fail ambiguously, reporting both candidates. -/
theorem from_rev_decides_witness :
    Object.from_rev ⟨[⟨"aa", "bbbb", [1]⟩, ⟨"aa", "bbbc", [1]⟩], []⟩ "aabb" =
      .error "Ambiguous reference: [\"aabbbb\", \"aabbbc\"]" :=
  ((from_rev_decides ⟨[⟨"aa", "bbbb", [1]⟩, ⟨"aa", "bbbc", [1]⟩], []⟩ "aabb"
    (by decide)).2.2 (by decide)).trans (by decide)

/-! ### C5/C6/C10 — commit header and message decoding -/

theorem splitOnceSpace_eq_none_iff (l : List Char) : splitOnceSpace l = none ↔ ' ' ∉ l := by
  induction l with
  | nil => simp [splitOnceSpace]
  | cons c rest ih =>
    by_cases hc : c = ' '
    · subst hc; simp [splitOnceSpace]
    · simp only [splitOnceSpace, if_neg hc, Option.map_eq_none', ih, List.mem_cons]
      constructor
      · intro h hmem
        rcases hmem with h' | h'
        · exact hc h'.symm
        · exact h h'
      · intro h hmem
        exact h (Or.inr hmem)

theorem splitOnceSpace_key_line (k v : List Char) (hk : ' ' ∉ k) :
    splitOnceSpace (k ++ ' ' :: v) = some (k, v) := by
  induction k with
  | nil => simp [splitOnceSpace]
  | cons c k' ih =>
    have hc : ¬(c = ' ') := fun h => hk (by simp [h])
    have hk' : ' ' ∉ k' := fun h => hk (by simp [h])
    simp [splitOnceSpace, hc, ih hk']

theorem key_line_isEmpty (k v : List Char) (c : Char) : (k ++ c :: v).isEmpty = false := by
  cases k <;> rfl

theorem applyHeaderKV_message (cm : Commit) (kv : List Char × List Char) :
    (applyHeaderKV cm kv).message = cm.message := by
  unfold applyHeaderKV
  split_ifs <;> rfl

theorem parseCommitLines_invalid_iff (ls : List (List Char)) :
    ∀ cm, parseCommitLines ls cm = .error "Invalid line" ↔
      ∃ l ∈ ls.takeWhile (fun l => !l.isEmpty), ' ' ∉ l := by
  induction ls with
  | nil => intro cm; simp [parseCommitLines]
  | cons l rest ih =>
    intro cm
    by_cases hl : l.isEmpty
    · simp [parseCommitLines, hl, List.takeWhile_cons]
    · have hl' : (!l.isEmpty) = true := by simp [hl]
      rw [List.takeWhile_cons, if_pos hl']
      rcases hsp : splitOnceSpace l with _ | kv
      · have hspace : ' ' ∉ l := (splitOnceSpace_eq_none_iff l).mp hsp
        have hlhs : parseCommitLines (l :: rest) cm = .error "Invalid line" := by
          simp only [parseCommitLines]
          rw [if_neg (by simp [hl]), hsp]
        rw [hlhs]
        exact iff_of_true rfl ⟨l, List.mem_cons_self l _, hspace⟩
      · have hspace : ' ' ∈ l := by
          by_contra hn
          rw [(splitOnceSpace_eq_none_iff l).mpr hn] at hsp
          exact Option.noConfusion hsp
        have hstep : parseCommitLines (l :: rest) cm =
            parseCommitLines rest (applyHeaderKV cm kv) := by
          simp only [parseCommitLines]
          rw [if_neg (by simp [hl]), hsp]
        rw [hstep, ih]
        constructor
        · rintro ⟨a, ha, hna⟩
          exact ⟨a, List.mem_cons_of_mem _ ha, hna⟩
        · rintro ⟨a, ha, hna⟩
          rcases List.mem_cons.mp ha with rfl | hmem
          · exact absurd hspace hna
          · exact ⟨a, hmem, hna⟩

theorem parseCommitLines_total (ls : List (List Char)) :
    ∀ cm, (∃ cm', parseCommitLines ls cm = .ok cm') ∨
      parseCommitLines ls cm = .error "Invalid line" := by
  induction ls with
  | nil => intro cm; exact Or.inl ⟨cm, rfl⟩
  | cons l rest ih =>
    intro cm
    by_cases hl : l.isEmpty
    · exact Or.inl ⟨{ cm with message := ⟨joinNL rest⟩ }, by simp [parseCommitLines, hl]⟩
    · rcases hsp : splitOnceSpace l with _ | kv
      · refine Or.inr ?_
        simp only [parseCommitLines]
        rw [if_neg (by simp_all), hsp]
      · have hgoal := ih (applyHeaderKV cm kv)
        simp only [parseCommitLines]
        rw [if_neg (by simp_all), hsp]
        exact hgoal

theorem parseCommitLines_message (ls : List (List Char)) :
    ∀ cm cm', parseCommitLines ls cm = .ok cm' →
      cm'.message =
        (match ls.dropWhile (fun l => !l.isEmpty) with
          | [] => cm.message
          | _ :: t => (⟨joinNL t⟩ : String)) := by
  induction ls with
  | nil =>
    intro cm cm' h
    injection h with h
    subst h
    rfl
  | cons l rest ih =>
    intro cm cm' h
    by_cases hl : l.isEmpty
    · simp only [parseCommitLines, hl, if_true] at h
      injection h with h
      subst h
      simp [List.dropWhile_cons, hl]
    · rcases hsp : splitOnceSpace l with _ | kv
      · rw [show parseCommitLines (l :: rest) cm = .error "Invalid line" from by
            simp only [parseCommitLines]; rw [if_neg (by simp_all), hsp]] at h
        exact Except.noConfusion h
      · simp only [parseCommitLines] at h
        rw [if_neg (by simp_all), hsp] at h
        have hmsg := ih _ _ h
        rw [hmsg, List.dropWhile_cons, if_pos (by simp_all)]
        rcases hdw : rest.dropWhile (fun l => !l.isEmpty) with _ | ⟨x, t⟩ <;> simp only [hdw]
        · exact applyHeaderKV_message cm kv

theorem parseCommitLines_key_step (k v : List Char) (rest : List (List Char)) (cm : Commit)
    (hk : ' ' ∉ k) :
    parseCommitLines ((k ++ ' ' :: v) :: rest) cm =
      parseCommitLines rest (applyHeaderKV cm (k, v)) := by
  simp only [parseCommitLines, key_line_isEmpty]
  rw [if_neg (by simp), splitOnceSpace_key_line k v hk]

/-- C5 (counterexample to the claim as stated): the header line `"tree x y"`
contains two spaces — more than "exactly one" — yet decoding succeeds (the
value keeps everything after the first space) instead of failing with
"Invalid line". -/
theorem commit_multi_space_accepted :
    parseCommitContent "tree x y".data = .ok { tree := "x y" } ∧
    ("tree x y".data.filter (fun c => c == ' ')).length = 2 := by
  exact ⟨by decide, by decide⟩

/-- C5 (amended): a non-empty header line before the first empty line fails
with "Invalid line" exactly when it contains no space at all; lines with a
space never make decoding fail — a recognized key (tree, parent, author,
committer, encoding) overwrites the corresponding field, with the value being
everything after the first space, and an unrecognized key is silently
ignored. -/
theorem commit_header_line_handling :
    (∀ ls cm, (parseCommitLines ls cm = .error "Invalid line" ↔
        ∃ l ∈ ls.takeWhile (fun l => !l.isEmpty), ' ' ∉ l)) ∧
    (∀ ls cm, (∀ l ∈ ls.takeWhile (fun l => !l.isEmpty), ' ' ∈ l) →
        ∃ cm', parseCommitLines ls cm = .ok cm') ∧
    (∀ (k v : List Char) rest cm, ' ' ∉ k →
        k ∉ ["tree".data, "parent".data, "author".data, "committer".data, "encoding".data] →
        parseCommitLines ((k ++ ' ' :: v) :: rest) cm = parseCommitLines rest cm) ∧
    (∀ (v : List Char) rest cm, parseCommitLines (("tree".data ++ ' ' :: v) :: rest) cm =
        parseCommitLines rest { cm with tree := ⟨v⟩ }) ∧
    (∀ (v : List Char) rest cm, parseCommitLines (("parent".data ++ ' ' :: v) :: rest) cm =
        parseCommitLines rest { cm with parent := ⟨v⟩ }) ∧
    (∀ (v : List Char) rest cm, parseCommitLines (("author".data ++ ' ' :: v) :: rest) cm =
        parseCommitLines rest { cm with author := ⟨v⟩ }) ∧
    (∀ (v : List Char) rest cm, parseCommitLines (("committer".data ++ ' ' :: v) :: rest) cm =
        parseCommitLines rest { cm with committer := ⟨v⟩ }) ∧
    (∀ (v : List Char) rest cm, parseCommitLines (("encoding".data ++ ' ' :: v) :: rest) cm =
        parseCommitLines rest { cm with encoding := ⟨v⟩ }) := by
  refine ⟨parseCommitLines_invalid_iff, fun ls cm hall => ?_, ?_, ?_, ?_, ?_, ?_, ?_⟩
  · rcases parseCommitLines_total ls cm with h | h
    · exact h
    · rw [parseCommitLines_invalid_iff] at h
      rcases h with ⟨l, hl, hnsp⟩
      exact absurd (hall l hl) hnsp
  · intro k v rest cm hk hknot
    rw [parseCommitLines_key_step k v rest cm hk]
    congr 1
    unfold applyHeaderKV
    split_ifs with h1 h2 h3 h4 h5
    · exact absurd (by rw [show k = "tree".data from h1]; decide) hknot
    · exact absurd (by rw [show k = "parent".data from h2]; decide) hknot
    · exact absurd (by rw [show k = "author".data from h3]; decide) hknot
    · exact absurd (by rw [show k = "committer".data from h4]; decide) hknot
    · exact absurd (by rw [show k = "encoding".data from h5]; decide) hknot
    · rfl
  · intro v rest cm
    rw [parseCommitLines_key_step _ v rest cm (by decide)]
    congr 1
  · intro v rest cm
    rw [parseCommitLines_key_step _ v rest cm (by decide)]
    congr 1
  · intro v rest cm
    rw [parseCommitLines_key_step _ v rest cm (by decide)]
    congr 1
  · intro v rest cm
    rw [parseCommitLines_key_step _ v rest cm (by decide)]
    congr 1
  · intro v rest cm
    rw [parseCommitLines_key_step _ v rest cm (by decide)]
    congr 1

/-- C5 witness: a header line with no space fails with "Invalid line". -/
theorem commit_header_line_handling_witness :
    parseCommitLines ["treexy".data] commitDefault = .error "Invalid line" :=
  (commit_header_line_handling.1 ["treexy".data] commitDefault).mpr
    ⟨"treexy".data, by decide, by decide⟩

/-- C6 (counterexample to the claim as stated): with content
`"tree a\n\nhi\n"` the text after the first empty line is `"hi\n"`, but the
decoded message is `"hi"` — the trailing newline of the content is not
preserved. -/
theorem commit_trailing_newline_dropped :
    parseCommitContent "tree a\n\nhi\n".data = .ok { tree := "a", message := "hi" } ∧
    ("hi" : String) ≠ "hi\n" := by
  exact ⟨by decide, by decide⟩

/-- C6 (amended): the decoded message is the lines after the first empty line
rejoined with newlines — embedded empty lines are preserved verbatim, but a
trailing line terminator of the original content does not survive the
line-splitting and is not part of the message (no empty line at all leaves
the message empty). -/
theorem commit_message_is_rejoined_tail (content : List Char) (cm : Commit)
    (h : parseCommitContent content = .ok cm) :
    cm.message = ⟨joinNL (linesAfterFirstEmpty (rustLines content))⟩ := by
  have := parseCommitLines_message (rustLines content) commitDefault cm h
  rw [this]
  unfold linesAfterFirstEmpty
  rcases hdw : (rustLines content).dropWhile (fun l => !l.isEmpty) with _ | ⟨x, t⟩ <;>
    simp only [hdw]
  rfl

/-- C6 witness: evaluating the message law on the content
`"tree a\n\nhi\nthere\n"`. -/
theorem commit_message_is_rejoined_tail_witness :
    (({ tree := "a", message := "hi\nthere" } : Commit)).message =
      ⟨joinNL (linesAfterFirstEmpty (rustLines "tree a\n\nhi\nthere\n".data))⟩ :=
  commit_message_is_rejoined_tail "tree a\n\nhi\nthere\n".data
    { tree := "a", message := "hi\nthere" } (by decide)

/-- C10: a commit content consisting only of well-formed `key value` header
lines, with no empty line anywhere, decodes successfully and yields an empty
message. -/
theorem commit_without_message_block (content : List Char)
    (h : ∀ l ∈ rustLines content, l ≠ [] ∧ ' ' ∈ l) :
    ∃ cm, parseCommitContent content = .ok cm ∧ cm.message = "" := by
  rcases parseCommitLines_total (rustLines content) commitDefault with ⟨cm, hcm⟩ | herr
  · refine ⟨cm, hcm, ?_⟩
    have hmsg := parseCommitLines_message (rustLines content) commitDefault cm hcm
    have hdw : (rustLines content).dropWhile (fun l => !l.isEmpty) = [] := by
      rw [List.dropWhile_eq_nil_iff]
      intro l hl
      simp [List.isEmpty_iff, (h l hl).1]
    rw [hmsg, hdw]
    rfl
  · rw [parseCommitLines_invalid_iff] at herr
    rcases herr with ⟨l, hl, hnsp⟩
    have hmem : l ∈ rustLines content := (List.takeWhile_sublist _).subset hl
    exact absurd (h l hmem).2 hnsp

/-- C10 witness: the content `"tree a\nparent b"` (no empty line) decodes to a
commit with an empty message. -/
theorem commit_without_message_block_witness :
    ∃ cm, parseCommitContent "tree a\nparent b".data = .ok cm ∧ cm.message = "" :=
  commit_without_message_block "tree a\nparent b".data (by decide)

/-! ### C7 — reference resolution -/

/-- C7 (counterexample to the claim as stated): for the reference file `a`
with content `" ref: b"` the trimmed content starts with `"ref: "`, yet
`find_ref` does not recurse — it returns `" ref: b"` itself (end-trimmed), not
the identifier held by `b` — because the code tests the raw content.  Also,
for `d` with content `"ref: ref: b"` the code strips the marker repeatedly and
resolves the file `b`, not the file literally named `"ref: b"` (which does not
even exist). -/
theorem find_ref_trimmed_marker_counterexample :
    strStartsWith (rustTrim " ref: b") "ref: " = true ∧
    find_ref ⟨[], [("a", " ref: b"), ("b", "c"), ("d", "ref: ref: b")]⟩ 9 "a" =
      some (.ok " ref: b") ∧
    find_ref ⟨[], [("a", " ref: b"), ("b", "c"), ("d", "ref: ref: b")]⟩ 9 "b" =
      some (.ok "c") ∧
    (" ref: b" : String) ≠ "c" ∧
    find_ref ⟨[], [("a", " ref: b"), ("b", "c"), ("d", "ref: ref: b")]⟩ 9 "d" =
      some (.ok "c") ∧
    refLookup ⟨[], [("a", " ref: b"), ("b", "c"), ("d", "ref: ref: b")]⟩ "ref: b" = none := by
  exact ⟨by decide, by decide, by decide, by decide, by decide, by decide⟩

/-- C7 (amended): a missing reference path fails with "Reference not found";
when the raw (untrimmed) content starts with the literal marker `"ref: "`,
resolution recurses on the content with all leading repetitions of the marker
stripped and trailing whitespace trimmed; otherwise the end-trimmed content is
returned as the literal identifier. -/
theorem find_ref_dispatch (repo : Repo) (fuel : Nat) (reference : String) :
    (refLookup repo reference = none →
      find_ref repo (fuel + 1) reference =
        some (.error ("Reference not found: " ++ reference))) ∧
    (∀ content, refLookup repo reference = some content →
      (strStartsWith content "ref: " = true →
        find_ref repo (fuel + 1) reference =
          find_ref repo fuel (trimEnd (stripRefMarker content))) ∧
      (strStartsWith content "ref: " = false →
        find_ref repo (fuel + 1) reference = some (.ok (trimEnd content)))) := by
  refine ⟨fun hn => ?_, fun content hc => ⟨fun hs => ?_, fun hs => ?_⟩⟩
  · simp [find_ref, hn]
  · simp [find_ref, hc, hs]
  · simp [find_ref, hc, hs]

/-- C7 witness: `HEAD` containing `"ref: refs/heads/feature"` resolves through
one level of indirection to the literal identifier stored in
`refs/heads/feature`. -/
theorem find_ref_dispatch_witness :
    find_ref ⟨[], [("HEAD", "ref: refs/heads/feature"), ("refs/heads/feature", "abc123\n")]⟩
        2 "HEAD" =
      find_ref ⟨[], [("HEAD", "ref: refs/heads/feature"), ("refs/heads/feature", "abc123\n")]⟩
        1 "refs/heads/feature" ∧
    find_ref ⟨[], [("HEAD", "ref: refs/heads/feature"), ("refs/heads/feature", "abc123\n")]⟩
        2 "HEAD" = some (.ok "abc123") := by
  refine ⟨?_, ?_⟩
  · exact ((find_ref_dispatch
      ⟨[], [("HEAD", "ref: refs/heads/feature"), ("refs/heads/feature", "abc123\n")]⟩ 1
      "HEAD").2 "ref: refs/heads/feature" (by decide)).1 (by decide)
  · decide

/-! ### C8 — the history walk -/

theorem from_rev_empty_string (repo : Repo) :
    Object.from_rev repo "" = .error "Object not found" := by
  have h : ¬(4 ≤ strLen "") := by decide
  simp [Object.from_rev, h]

theorem logAux_commit_step (repo : Repo) (f : Nat) (rev : String) (acc : List String)
    (cm : Commit) (hr : Object.from_rev repo rev = .ok (.Commit cm))
    (hne : ¬cm.parent = "") :
    logAux repo (f + 1) rev acc = logAux repo f cm.parent (fmtLogLine rev cm :: acc) := by
  simp only [logAux, hr]
  rw [if_neg hne]

theorem logAux_root_step (repo : Repo) (f : Nat) (rev : String) (acc : List String)
    (cm : Commit) (hr : Object.from_rev repo rev = .ok (.Commit cm))
    (heq : cm.parent = "") :
    logAux repo (f + 1) rev acc = some (.ok (fmtLogLine rev cm :: acc).reverse) := by
  simp only [logAux, hr]
  rw [if_pos heq]

/-- C8: on a three-commit chain (the start revision resolves to `c2`, whose
parent field resolves to `c1`, whose parent field resolves to the root `c0`
with an empty parent), `log` emits exactly one formatted line per commit, in
order start-parent-grandparent, and terminates (any fuel of at least 3 yields
this same finished output). -/
theorem log_three_commit_chain (repo : Repo) (h2 h1 h0 : String) (c2 c1 c0 : Commit)
    (fuel : Nat)
    (hr2 : Object.from_rev repo h2 = .ok (.Commit c2)) (hp2 : c2.parent = h1)
    (hr1 : Object.from_rev repo h1 = .ok (.Commit c1)) (hp1 : c1.parent = h0)
    (hr0 : Object.from_rev repo h0 = .ok (.Commit c0)) (hp0 : c0.parent = "")
    (hf : 3 ≤ fuel) :
    log repo h2 fuel =
      some (.ok [fmtLogLine h2 c2, fmtLogLine h1 c1, fmtLogLine h0 c0]) := by
  obtain ⟨k, rfl⟩ : ∃ k, fuel = k + 3 := ⟨fuel - 3, by omega⟩
  have hne2 : ¬c2.parent = "" := by
    rw [hp2]
    intro he
    rw [he, from_rev_empty_string repo] at hr1
    exact Except.noConfusion hr1
  have hne1 : ¬c1.parent = "" := by
    rw [hp1]
    intro he
    rw [he, from_rev_empty_string repo] at hr0
    exact Except.noConfusion hr0
  show logAux repo (k + 2 + 1) h2 [] = _
  rw [logAux_commit_step repo (k + 2) h2 [] c2 hr2 hne2, hp2]
  show logAux repo (k + 1 + 1) h1 [fmtLogLine h2 c2] = _
  rw [logAux_commit_step repo (k + 1) h1 [fmtLogLine h2 c2] c1 hr1 hne1, hp1]
  rw [logAux_root_step repo k h0 [fmtLogLine h1 c1, fmtLogLine h2 c2] c0 hr0 hp0]
  rfl

/-- C8 witness: a concrete three-commit chain `c2c2 → c1c1 → c0c0` produces
exactly the three expected lines. -/
theorem log_three_commit_chain_witness :
    log ⟨[⟨"c2", "c2", strBytes "commit 37\x00tree t\nparent c1c1\ncommitter me\n\nmsg2"⟩,
          ⟨"c1", "c1", strBytes "commit 37\x00tree t\nparent c0c0\ncommitter me\n\nmsg1"⟩,
          ⟨"c0", "c0", strBytes "commit 25\x00tree t\ncommitter me\n\nmsg0"⟩], []⟩
      "c2c2" 3 =
      some (.ok ["c2c2 - msg2 - \"me\"", "c1c1 - msg1 - \"me\"", "c0c0 - msg0 - \"me\""]) :=
  (log_three_commit_chain
    ⟨[⟨"c2", "c2", strBytes "commit 37\x00tree t\nparent c1c1\ncommitter me\n\nmsg2"⟩,
      ⟨"c1", "c1", strBytes "commit 37\x00tree t\nparent c0c0\ncommitter me\n\nmsg1"⟩,
      ⟨"c0", "c0", strBytes "commit 25\x00tree t\ncommitter me\n\nmsg0"⟩], []⟩
    "c2c2" "c1c1" "c0c0"
    ⟨"t", "c1c1", "", "me", "", "msg2"⟩
    ⟨"t", "c0c0", "", "me", "", "msg1"⟩
    ⟨"t", "", "", "me", "", "msg0"⟩ 3
    (by decide) (by decide) (by decide) (by decide) (by decide) (by decide)
    (by decide)).trans (by decide)

/-! ### C9 — hash splitting in from_hash -/

theorem isContByte_false_lo (b : Nat) (h : b < 128) : isContByte b = false := by
  simp only [isContByte, Bool.and_eq_false_iff, decide_eq_false_iff_not, not_le, not_lt]
  omega

theorem isContByte_false_hi (b : Nat) (h : 192 ≤ b) : isContByte b = false := by
  simp only [isContByte, Bool.and_eq_false_iff, decide_eq_false_iff_not, not_le, not_lt]
  omega

theorem isContByte_true_of (b : Nat) (h1 : 128 ≤ b) (h2 : b < 192) : isContByte b = true := by
  simp only [isContByte, Bool.and_eq_true, decide_eq_true_eq]
  omega

theorem utf8EncodeChar_shape (c : Char) :
    (∃ b, utf8EncodeChar c = [b] ∧ isContByte b = false) ∨
    (∃ b r1, utf8EncodeChar c = [b, r1] ∧ isContByte b = false ∧ isContByte r1 = true) ∨
    (∃ b r1 r2, utf8EncodeChar c = [b, r1, r2] ∧ isContByte b = false ∧
      isContByte r1 = true ∧ isContByte r2 = true) ∨
    (∃ b r1 r2 r3, utf8EncodeChar c = [b, r1, r2, r3] ∧ isContByte b = false ∧
      isContByte r1 = true ∧ isContByte r2 = true ∧ isContByte r3 = true) := by
  have hand1 : c.toNat &&& 0x3F ≤ 0x3F := Nat.and_le_right
  have hand2 : c.toNat >>> 6 &&& 0x3F ≤ 0x3F := Nat.and_le_right
  have hand3 : c.toNat >>> 12 &&& 0x3F ≤ 0x3F := Nat.and_le_right
  simp only [utf8EncodeChar]
  split_ifs with h1 h2 h3
  · exact Or.inl ⟨_, rfl, isContByte_false_lo _ h1⟩
  · exact Or.inr (Or.inl ⟨_, _, rfl, isContByte_false_hi _ (by omega),
      isContByte_true_of _ (by omega) (by omega)⟩)
  · exact Or.inr (Or.inr (Or.inl ⟨_, _, _, rfl, isContByte_false_hi _ (by omega),
      isContByte_true_of _ (by omega) (by omega), isContByte_true_of _ (by omega) (by omega)⟩))
  · exact Or.inr (Or.inr (Or.inr ⟨_, _, _, _, rfl, isContByte_false_hi _ (by omega),
      isContByte_true_of _ (by omega) (by omega), isContByte_true_of _ (by omega) (by omega),
      isContByte_true_of _ (by omega) (by omega)⟩))

theorem splitAtByte2_none_iff (s : List Char) :
    splitAtByte2 s = none ↔
      (utf8Bytes s).length < 2 ∨
        (2 < (utf8Bytes s).length ∧ isContByte ((utf8Bytes s).getD 2 0) = true) := by
  rcases s with _ | ⟨c1, _ | ⟨c2, t⟩⟩
  · simp [splitAtByte2, utf8Bytes]
  · rcases utf8EncodeChar_shape c1 with ⟨b, hb, hcb⟩ | ⟨b, r1, hb, hcb, hc1⟩ |
      ⟨b, r1, r2, hb, hcb, hc1, hc2⟩ | ⟨b, r1, r2, r3, hb, hcb, hc1, hc2, hc3⟩
    · simp [splitAtByte2, utf8Bytes, hb]
    · simp [splitAtByte2, utf8Bytes, hb]
    · simp [splitAtByte2, utf8Bytes, hb, hc2]
    · simp [splitAtByte2, utf8Bytes, hb, hc2]
  · rcases utf8EncodeChar_shape c1 with ⟨b, hb, hcb⟩ | ⟨b, r1, hb, hcb, hc1⟩ |
      ⟨b, r1, r2, hb, hcb, hc1, hc2⟩ | ⟨b, r1, r2, r3, hb, hcb, hc1, hc2, hc3⟩
    · rcases utf8EncodeChar_shape c2 with ⟨b2, hb2, hcb2⟩ | ⟨b2, r12, hb2, hcb2, hc12⟩ |
        ⟨b2, r12, r22, hb2, hcb2, hc12, hc22⟩ | ⟨b2, r12, r22, r32, hb2, hcb2, hc12, hc22, hc32⟩
      · rcases t with _ | ⟨c3, t'⟩
        · simp [splitAtByte2, utf8Bytes, hb, hb2]
        · rcases utf8EncodeChar_shape c3 with ⟨b3, hb3, hcb3⟩ | ⟨b3, r13, hb3, hcb3, _⟩ |
            ⟨b3, r13, r23, hb3, hcb3, _, _⟩ | ⟨b3, r13, r23, r33, hb3, hcb3, _, _, _⟩ <;>
            simp [splitAtByte2, utf8Bytes, hb, hb2, hb3, hcb3]
      · simp [splitAtByte2, utf8Bytes, hb, hb2, hc12]
      · simp [splitAtByte2, utf8Bytes, hb, hb2, hc12]
      · simp [splitAtByte2, utf8Bytes, hb, hb2, hc12]
    · rcases utf8EncodeChar_shape c2 with ⟨b2, hb2, hcb2⟩ | ⟨b2, r12, hb2, hcb2, _⟩ |
        ⟨b2, r12, r22, hb2, hcb2, _, _⟩ | ⟨b2, r12, r22, r32, hb2, hcb2, _, _, _⟩ <;>
        simp [splitAtByte2, utf8Bytes, hb, hb2, hcb2]
    · simp [splitAtByte2, utf8Bytes, hb, hc2]
    · simp [splitAtByte2, utf8Bytes, hb, hc2]

/-- C9 (counterexample to the claim as stated): `"é"` is shorter than 2
characters, yet `from_hash` does not return "Invalid hash" — its UTF-8
encoding is exactly 2 bytes, so the split succeeds and a filesystem read is
attempted (failing with "Could not read from file" on an empty store). -/
theorem from_hash_one_char_counterexample :
    strLen "é" < 2 ∧
    Object.from_hash ⟨[], []⟩ "é" = .error "Could not read from file" ∧
    Object.from_hash ⟨[], []⟩ "é" ≠ .error "Invalid hash" := by
  exact ⟨by decide, by decide, by decide⟩

/-- C9 (amended): whenever the hash's UTF-8 encoding is shorter than 2 bytes,
or byte offset 2 falls inside a multi-byte character (the byte there is a
continuation byte), `from_hash` returns "Invalid hash" without attempting any
filesystem lookup — the result is the same for every repository. -/
theorem from_hash_invalid_on_bad_split (repo : Repo) (hsh : String)
    (hcond : (strBytes hsh).length < 2 ∨
      (2 < (strBytes hsh).length ∧ isContByte ((strBytes hsh).getD 2 0) = true)) :
    Object.from_hash repo hsh = .error "Invalid hash" := by
  have hnone : splitAtByte2 hsh.data = none := (splitAtByte2_none_iff hsh.data).mpr hcond
  simp [Object.from_hash, hnone]

/-- C9 witness: the one-byte hash `"a"` is rejected as invalid even on a
non-empty store. -/
theorem from_hash_invalid_on_bad_split_witness :
    Object.from_hash ⟨[⟨"ab", "c", [1]⟩], []⟩ "a" = .error "Invalid hash" :=
  from_hash_invalid_on_bad_split ⟨[⟨"ab", "c", [1]⟩], []⟩ "a" (Or.inl (by decide))

end GoodGit
